import Mathlib

/-
Verification of the PortfolioAnalyzer ingestion / classification pipeline.

Shallow embedding of the core logic of
  src/PortfolioAnalyzer/portfolio_analyzer.py
  src/PortfolioAnalyzer/app2.py        (ledger detection / aggregation path)
  src/PortfolioAnalyzer/market_data.py (symbol resolution and reconciliation)

Modelling conventions:
 - a pandas cell that may be NaN is an `Option`;
 - monetary and quantity cells are rationals (`ℚ`);
 - Python `term in s` on strings is substring containment, embedded by
   `containsTerm`; `s.lower()` is embedded character-wise by `lowerChars`;
 - pandas `groupby` drops rows whose grouping key is NaN (its default
   `dropna=True`), `sum` over a group skips NaN (empty sum is 0), `mean`
   over a group skips NaN (all-NaN mean is NaN);
 - pandas emits groups in sorted key order and the code re-sorts the result
   with an unstable quicksort; the embedding uses first-appearance grouping
   and a stable insertion sort.  Every property proved below (membership,
   absence of duplicate keys, sortedness, filtered sums) is invariant under
   the order in which groups are emitted, so the difference is unobservable
   in the theorems;
 - division by zero, which in pandas produces NaN/inf instead of raising, is
   modelled explicitly with `Option` where a theorem depends on it.
-/

namespace PortfolioAnalyzer

/-! ### Generic list helpers -/

/-- Substring search over character lists: does the second list contain the
first as a contiguous run?  Embeds Python's `needle in hay` for strings. -/
def subSearch (n : List Char) : List Char → Bool
  | [] => n.isEmpty
  | c :: t => n.isPrefixOf (c :: t) || subSearch n t

/-- `containsTerm hay needle`: Python `needle in hay` on strings. -/
def containsTerm (hay : List Char) (needle : String) : Bool :=
  subSearch needle.toList hay

/-- Character-wise lower-casing, embedding Python `str(x).lower()` for the
ASCII identifiers these tables use. -/
def lowerChars (s : String) : List Char := s.toList.map Char.toLower

/-- First-appearance deduplication with an accumulator of already seen
elements (structural recursion so concrete instances evaluate). -/
def uniqFrom {α : Type} [DecidableEq α] (seen : List α) : List α → List α
  | [] => []
  | a :: t => if a ∈ seen then uniqFrom seen t else a :: uniqFrom (a :: seen) t

/-- The distinct elements of `l` in order of first appearance: the group keys
that a `groupby` over `l` produces. -/
def uniqFirst {α : Type} [DecidableEq α] (l : List α) : List α := uniqFrom [] l

theorem mem_uniqFrom {α : Type} [DecidableEq α] (l : List α) :
    ∀ (seen : List α) (a : α), a ∈ uniqFrom seen l ↔ a ∈ l ∧ a ∉ seen := by
  induction l with
  | nil => intro seen a; simp [uniqFrom]
  | cons b t ih =>
    intro seen a
    by_cases hb : b ∈ seen
    · rw [uniqFrom, if_pos hb, ih]
      constructor
      · exact fun ⟨h1, h2⟩ => ⟨List.mem_cons_of_mem _ h1, h2⟩
      · rintro ⟨h1, h2⟩
        rcases List.mem_cons.mp h1 with h | h
        · exact absurd (h ▸ hb) h2
        · exact ⟨h, h2⟩
    · rw [uniqFrom, if_neg hb]
      by_cases hab : a = b
      · subst hab; simp [hb]
      · simp [List.mem_cons, hab, ih]
        try tauto

theorem mem_uniqFirst {α : Type} [DecidableEq α] (l : List α) (a : α) :
    a ∈ uniqFirst l ↔ a ∈ l := by
  simp [uniqFirst, mem_uniqFrom]

theorem nodup_uniqFrom {α : Type} [DecidableEq α] (l : List α) :
    ∀ seen : List α, (uniqFrom seen l).Nodup := by
  induction l with
  | nil => intro seen; simp [uniqFrom]
  | cons b t ih =>
    intro seen
    by_cases hb : b ∈ seen
    · rw [uniqFrom, if_pos hb]; exact ih seen
    · rw [uniqFrom, if_neg hb]
      refine List.Nodup.cons ?_ (ih (b :: seen))
      intro hmem
      rw [mem_uniqFrom] at hmem
      exact hmem.2 (List.mem_cons_self b seen)

theorem nodup_uniqFirst {α : Type} [DecidableEq α] (l : List α) :
    (uniqFirst l).Nodup := nodup_uniqFrom l []

/-! ### Classifier
(`portfolio_analyzer.py`, `map_category_to_asset_class`, lines 86-102) -/

/-- `map_category_to_asset_class` from `portfolio_analyzer.py`: lower-case
the category text, then an if/elif chain of keyword-set tests, first match
wins, else `'Other'`. -/
def map_category_to_asset_class (category : String) : String :=
  let c := lowerChars category
  if (["azioni", "azion", "stock", "equity", "share"]).any (containsTerm c) then
    "Stocks"
  else if (["obblig", "bond", "fixed income", "treasury"]).any (containsTerm c) then
    "Bonds"
  else if (["monetario", "money market", "liquidity", "cash"]).any (containsTerm c) then
    "Money Market"
  else if (["commodit", "materie prime", "gold", "silver", "oil"]).any (containsTerm c) then
    "Commodities"
  else if (["immobil", "real estate", "reit"]).any (containsTerm c) then
    "Real Estate"
  else if (["alternativ", "hedge", "private equity"]).any (containsTerm c) then
    "Alternatives"
  else
    "Other"

/-- The spec's ordered rule table for the classifier (spec §4.3), one
(keyword-set, asset-class) pair per rule, in the spec's order. -/
def assetClassRules : List (List String × String) :=
  [(["azioni", "azion", "stock", "equity", "share"], "Stocks"),
   (["obblig", "bond", "fixed income", "treasury"], "Bonds"),
   (["monetario", "money market", "liquidity", "cash"], "Money Market"),
   (["commodit", "materie prime", "gold", "silver", "oil"], "Commodities"),
   (["immobil", "real estate", "reit"], "Real Estate"),
   (["alternativ", "hedge", "private equity"], "Alternatives")]

/-- First-match-wins evaluation of an ordered rule table, defaulting to the
catch-all bucket `'Other'` (the spec's description of the classifier). -/
def firstMatchRule (c : List Char) : List (List String × String) → String
  | [] => "Other"
  | (kws, cls) :: rest => if kws.any (containsTerm c) then cls else firstMatchRule c rest

/-- Modelled from the spec's words (§4.3): lower-case, then test the ordered
rule list with first match winning.  Compared against the source's
`map_category_to_asset_class` in the C3 theorem. -/
def classifyByOrderedRules (s : String) : String :=
  firstMatchRule (lowerChars s) assetClassRules

/-- The canonical asset-class set of the spec. -/
def canonicalAssetClasses : List String :=
  ["Stocks", "Bonds", "Money Market", "Commodities", "Real Estate",
   "Alternatives", "Other"]

theorem map_category_mem_canonical (s : String) :
    map_category_to_asset_class s ∈ canonicalAssetClasses := by
  simp only [map_category_to_asset_class]
  split_ifs <;> simp [canonicalAssetClasses]

/-- c3: The classifier is a total Lean function (hence never throws); for
every input string it lower-cases the input and evaluates the seven ordered
keyword rules with first match winning — it agrees everywhere with the
ordered-rule-table evaluation written from the spec — and its result is
always exactly one member of the canonical asset-class set. -/
theorem c3_classifier_total_ordered_rules (s : String) :
    map_category_to_asset_class s = classifyByOrderedRules s ∧
    map_category_to_asset_class s ∈ canonicalAssetClasses := by
  refine ⟨?_, map_category_mem_canonical s⟩
  simp only [classifyByOrderedRules, assetClassRules, firstMatchRule,
    map_category_to_asset_class]

/-- c3, instantiated at a concrete category text. -/
theorem c3_witness :
    map_category_to_asset_class "Obbligazionario Euro" =
      classifyByOrderedRules "Obbligazionario Euro" ∧
    map_category_to_asset_class "Obbligazionario Euro" ∈
      canonicalAssetClasses :=
  c3_classifier_total_ordered_rules "Obbligazionario Euro"

/-! ### Allocation Calculator
(`portfolio_analyzer.py`, `calculate_asset_allocation`, lines 140-159, and the
inline ledger-path variant of `app2.py`, lines 122-140.  Both group rows by
their class column, divide each group sum by the grand total, append a
zero row for every "major" class not present, and sort descending by the
allocation column; they differ only in the major-class list, so the common
core is parameterised by it.) -/

/-- A holding as the allocation calculator sees it: a class label (the
`asset_class` column, or `Categoria` on the ledger path) and its monetary
value (`value` / `Controvalore`). -/
structure AHolding where
  asset_class : String
  value : ℚ
deriving DecidableEq

/-- One output row of the allocation calculator.  `allocation` is `none`
when the pandas division produced NaN (0/0, possible only when the grand
total is zero). -/
structure AllocationRow where
  asset_class : String
  value : ℚ
  allocation : Option ℚ
deriving DecidableEq

/-- The `value` sum of the group of `k`:
`df_processed.groupby(asset_class_col)[value_col].sum()` for one key. -/
def groupValue (hs : List AHolding) (k : String) : ℚ :=
  ((hs.filter (·.asset_class == k)).map (·.value)).sum

/-- Total portfolio value: the sum of the value column. -/
def totalValue (hs : List AHolding) : ℚ := (hs.map (·.value)).sum

/-- The grouped rows with their allocation percentages:
`asset_allocation['allocation'] = value / value.sum() * 100`.  The division
is unguarded in the source; with a zero total pandas yields NaN (`none`
here), otherwise the exact quotient. -/
def allocRows (hs : List AHolding) : List AllocationRow :=
  let keys := uniqFirst (hs.map (·.asset_class))
  let total := (keys.map (groupValue hs)).sum
  keys.map (fun k =>
    ⟨k, groupValue hs k,
     if total = 0 then none else some (groupValue hs k / total * 100)⟩)

/-- `for asset_class in major_asset_classes: if asset_class not in
existing_classes: concat a {class, 0, 0} row` (the membership list is
computed once, before the loop, exactly as in the source). -/
def ensureMajors (majors : List String) (rows : List AllocationRow) :
    List AllocationRow :=
  rows ++
    (majors.filter (fun c => decide (c ∉ rows.map (·.asset_class)))).map
      (fun c => (⟨c, 0, some 0⟩ : AllocationRow))

/-- Descending order on the allocation column, NaN (`none`) last — the
order `sort_values('allocation', ascending=False)` establishes. -/
def allocGe (a b : AllocationRow) : Prop :=
  match a.allocation, b.allocation with
  | some x, some y => y ≤ x
  | some _, none => True
  | none, some _ => False
  | none, none => True

instance : DecidableRel allocGe := fun a b => by
  unfold allocGe
  cases a.allocation <;> cases b.allocation <;> infer_instance

instance : IsTotal AllocationRow allocGe where
  total a b := by
    unfold allocGe
    cases a.allocation <;> cases b.allocation
    all_goals simp
    exact le_total _ _

instance : IsTrans AllocationRow allocGe where
  trans a b c := by
    unfold allocGe
    cases a.allocation <;> cases b.allocation <;> cases c.allocation
    all_goals simp
    exact fun h1 h2 => le_trans h2 h1

/-- `major_asset_classes` of `calculate_asset_allocation`. -/
def major_asset_classes : List String :=
  ["Stocks", "Bonds", "Money Market", "Commodities", "Cash"]

/-- `major_asset_classes` of the `app2.py` ledger path. -/
def app2_major_asset_classes : List String :=
  ["Azionario", "Obbligazionario", "Materie Prime", "Liquidità"]

/-- The calculator core shared by both paths: group, divide, append the
missing majors, sort descending by allocation. -/
def assetAllocationWith (majors : List String) (hs : List AHolding) :
    List AllocationRow :=
  List.insertionSort allocGe (ensureMajors majors (allocRows hs))

/-- `calculate_asset_allocation` (from the point where the class and value
columns have been resolved). -/
def calculate_asset_allocation : List AHolding → List AllocationRow :=
  assetAllocationWith major_asset_classes

/-- The `asset_allocation` computation of the `app2.py` ledger path. -/
def app2_asset_allocation : List AHolding → List AllocationRow :=
  assetAllocationWith app2_major_asset_classes

/-- Summing group values over a duplicate-free key list covering all rows
recovers the total of the value column. -/
theorem sum_groupValue_eq_total (ks : List String) :
    ∀ hs : List AHolding, ks.Nodup → (∀ h ∈ hs, h.asset_class ∈ ks) →
      (ks.map (groupValue hs)).sum = totalValue hs := by
  induction ks with
  | nil =>
    intro hs _ hcov
    cases hs with
    | nil => simp [totalValue]
    | cons h t => exact absurd (hcov h (List.mem_cons_self h t)) (List.not_mem_nil _)
  | cons k ks ih =>
    intro hs hnd hcov
    have hperm := List.filter_append_perm (fun h => h.asset_class == k) hs
    set hs' := hs.filter (fun h => !(h.asset_class == k)) with hhs'
    have htot : totalValue hs =
        groupValue hs k + totalValue hs' := by
      have := (hperm.map (·.value)).sum_eq
      simpa [groupValue, totalValue, List.map_append, List.sum_append] using this.symm
    have hgv : ∀ k' ∈ ks, groupValue hs k' = groupValue hs' k' := by
      intro k' hk'
      have hne : k' ≠ k := by
        rintro rfl
        exact (List.nodup_cons.mp hnd).1 hk'
      have : hs'.filter (·.asset_class == k') = hs.filter (·.asset_class == k') := by
        rw [hhs', List.filter_filter]
        apply List.filter_congr
        intro h _
        by_cases hc : h.asset_class = k'
        · simp [hc, hne]
        · simp [hc]
      simp [groupValue, this]
    have hcov' : ∀ h ∈ hs', h.asset_class ∈ ks := by
      intro h hh
      have hmem := List.mem_filter.mp hh
      have h1 := hcov h hmem.1
      have h2 : h.asset_class ≠ k := by
        intro he
        simp [he] at hmem
      rcases List.mem_cons.mp h1 with h3 | h3
      · exact absurd h3 h2
      · exact h3
    calc ((k :: ks).map (groupValue hs)).sum
        = groupValue hs k + (ks.map (groupValue hs)).sum := by simp
      _ = groupValue hs k + (ks.map (groupValue hs')).sum := by
          rw [List.map_congr_left hgv]
      _ = groupValue hs k + totalValue hs' :=
          congrArg _ (ih hs' (List.nodup_cons.mp hnd).2 hcov')
      _ = totalValue hs := htot.symm

/-- The internal total of `allocRows` is the total of the value column. -/
theorem allocRows_total (hs : List AHolding) :
    ((uniqFirst (hs.map (·.asset_class))).map (groupValue hs)).sum =
      totalValue hs := by
  refine sum_groupValue_eq_total _ hs (nodup_uniqFirst _) ?_
  intro h hh
  exact (mem_uniqFirst _ _).mpr (List.mem_map_of_mem _ hh)

/-- Pulling a common `/ c * d` factor out of a list sum. -/
theorem sum_map_div_mul {α : Type} (l : List α) (f : α → ℚ) (c d : ℚ) :
    (l.map (fun k => f k / c * d)).sum = (l.map f).sum / c * d := by
  induction l with
  | nil => simp
  | cons a t ih => simp [ih]; ring

/-- c1: for any majors list (covering both calculator paths) and holding
set with non-negative values and positive total, the allocation
percentages of the output rows with positive value sum to 100, hence lie
within the claimed 0.01 tolerance. -/
theorem c1_positive_allocations_sum_to_100 (majors : List String)
    (hs : List AHolding) (hnn : ∀ h ∈ hs, 0 ≤ h.value)
    (hpos : 0 < totalValue hs) :
    |(((assetAllocationWith majors hs).filter (fun r => 0 < r.value)).map
        (fun r => r.allocation.getD 0)).sum - 100| ≤ 1 / 100 := by
  have htne : totalValue hs ≠ 0 := ne_of_gt hpos
  -- the sort is a permutation, so the filtered sum is that of the unsorted rows
  have hperm : List.Perm
      ((assetAllocationWith majors hs).filter (fun r => 0 < r.value))
      ((ensureMajors majors (allocRows hs)).filter (fun r => 0 < r.value)) :=
    List.Perm.filter _ (List.perm_insertionSort _ _)
  have hsum1 := (hperm.map (fun r => r.allocation.getD 0)).sum_eq
  rw [hsum1]
  -- the appended zero-value rows do not survive the positive-value filter
  have happ : ((majors.filter
        (fun c => decide (c ∉ (allocRows hs).map (·.asset_class)))).map
        (fun c => (⟨c, 0, some 0⟩ : AllocationRow))).filter
        (fun r => 0 < r.value) = [] := by
    rw [List.filter_eq_nil_iff]
    intro r hr
    rcases List.mem_map.mp hr with ⟨c, _, rfl⟩
    simp
  rw [ensureMajors, List.filter_append, happ, List.append_nil]
  -- rewrite the internal total as the portfolio total
  rw [allocRows, allocRows_total hs]
  simp only [if_neg htne]
  -- the filter over built rows is a filter over keys with positive group value
  rw [List.filter_map]
  set keys := uniqFirst (hs.map (·.asset_class)) with hkeys
  have hcomp : ∀ k : String,
      ((fun r : AllocationRow => decide (0 < r.value)) ∘
        (fun k => (⟨k, groupValue hs k,
          some (groupValue hs k / totalValue hs * 100)⟩ : AllocationRow))) k =
        decide (0 < groupValue hs k) := by
    intro k; rfl
  rw [List.filter_congr (fun k _ => hcomp k), List.map_map]
  have hmap : ∀ k ∈ keys.filter (fun k => decide (0 < groupValue hs k)),
      ((fun r : AllocationRow => r.allocation.getD 0) ∘
        (fun k => (⟨k, groupValue hs k,
          some (groupValue hs k / totalValue hs * 100)⟩ : AllocationRow))) k =
        groupValue hs k / totalValue hs * 100 := by
    intro k _; rfl
  rw [List.map_congr_left hmap, sum_map_div_mul]
  -- positive groups carry the whole total: the rest are zero groups
  have hgnn : ∀ k : String, 0 ≤ groupValue hs k := by
    intro k
    apply List.sum_nonneg
    intro x hx
    rcases List.mem_map.mp hx with ⟨h, hh, rfl⟩
    exact hnn h (List.mem_filter.mp hh).1
  have hsplit := (List.filter_append_perm
      (fun k => decide (0 < groupValue hs k)) keys).map (groupValue hs)
  have hzero : ((keys.filter
      (fun k => !decide (0 < groupValue hs k))).map (groupValue hs)).sum = 0 := by
    apply List.sum_eq_zero
    intro x hx
    rcases List.mem_map.mp hx with ⟨k, hk, rfl⟩
    have hnpos := (List.mem_filter.mp hk).2
    simp only [Bool.not_eq_true', decide_eq_false_iff_not, not_lt] at hnpos
    exact le_antisymm hnpos (hgnn k)
  have hpossum : ((keys.filter
      (fun k => decide (0 < groupValue hs k))).map (groupValue hs)).sum =
      totalValue hs := by
    have := hsplit.sum_eq
    rw [List.map_append, List.sum_append, hzero, add_zero] at this
    rw [this, hkeys]
    exact allocRows_total hs
  rw [hpossum, div_self htne, one_mul]
  norm_num

/-- c1 witness: a concrete two-holding portfolio satisfying the hypotheses,
with the conclusion obtained from the theorem. -/
theorem c1_witness :
    (∀ h ∈ ([⟨"Stocks", 60⟩, ⟨"Bonds", 40⟩] : List AHolding), 0 ≤ h.value) ∧
    0 < totalValue [⟨"Stocks", 60⟩, ⟨"Bonds", 40⟩] ∧
    |(((assetAllocationWith major_asset_classes
          [⟨"Stocks", 60⟩, ⟨"Bonds", 40⟩]).filter (fun r => 0 < r.value)).map
        (fun r => r.allocation.getD 0)).sum - 100| ≤ 1 / 100 :=
  ⟨by
    intro h hh
    simp only [List.mem_cons, List.not_mem_nil, or_false] at hh
    rcases hh with rfl | rfl <;> norm_num,
   by norm_num [totalValue],
   c1_positive_allocations_sum_to_100 major_asset_classes _
    (by
      intro h hh
      simp only [List.mem_cons, List.not_mem_nil, or_false] at hh
      rcases hh with rfl | rfl <;> norm_num)
    (by norm_num [totalValue])⟩

/-- c2 counterexample: on the one-holding portfolio `{Stocks: 100}`, the
output of `calculate_asset_allocation` has no `Real Estate` row (nor
`Alternatives`/`Other`) although the claim's canonical seven-class set
requires one, and it does contain a `Cash` row, which is outside that set:
the class list the code completes with is
`{Stocks, Bonds, Money Market, Commodities, Cash}`. -/
theorem c2_counterexample :
    "Real Estate" ∉
      (calculate_asset_allocation [⟨"Stocks", 100⟩]).map (·.asset_class) ∧
    "Alternatives" ∉
      (calculate_asset_allocation [⟨"Stocks", 100⟩]).map (·.asset_class) ∧
    "Cash" ∈
      (calculate_asset_allocation [⟨"Stocks", 100⟩]).map (·.asset_class) ∧
    "Real Estate" ∈ canonicalAssetClasses ∧
    "Cash" ∉ canonicalAssetClasses := by
  have hperm : ∀ c : String,
      c ∈ (calculate_asset_allocation [⟨"Stocks", 100⟩]).map (·.asset_class) ↔
      c ∈ (ensureMajors major_asset_classes
            (allocRows [⟨"Stocks", 100⟩])).map (·.asset_class) := by
    intro c
    exact ((List.perm_insertionSort allocGe _).map (·.asset_class)).mem_iff
  refine ⟨?_, ?_, ?_, by simp [canonicalAssetClasses], by simp [canonicalAssetClasses]⟩ <;>
    rw [calculate_asset_allocation, assetAllocationWith] at hperm ⊢ <;>
    rw [hperm] <;>
    simp [ensureMajors, allocRows, uniqFirst, uniqFrom, groupValue, totalValue,
      major_asset_classes]

theorem allocRows_classes (hs : List AHolding) :
    (allocRows hs).map (·.asset_class) = uniqFirst (hs.map (·.asset_class)) := by
  simp only [allocRows, List.map_map]
  calc List.map _ (uniqFirst (hs.map (·.asset_class)))
      = List.map (fun k => k) (uniqFirst (hs.map (·.asset_class))) :=
        List.map_congr_left (fun k _ => rfl)
    _ = uniqFirst (hs.map (·.asset_class)) := List.map_id' _

/-- c2 amended: for any duplicate-free majors list (the code's are
`{Stocks, Bonds, Money Market, Commodities, Cash}` on the holdings path
and `{Azionario, Obbligazionario, Materie Prime, Liquidità}` on the ledger
path — not the spec's canonical seven) the output has exactly one row per
class that is either present in the input or a major: no duplicate
classes, a synthesized zero-value zero-percent row for every major class
missing from the input, and the rows sorted descending by allocation. -/
theorem c2_amended (majors : List String) (hm : majors.Nodup)
    (hs : List AHolding) :
    ((assetAllocationWith majors hs).map (·.asset_class)).Nodup ∧
    (∀ c, c ∈ (assetAllocationWith majors hs).map (·.asset_class) ↔
      (∃ h ∈ hs, h.asset_class = c) ∨ c ∈ majors) ∧
    (∀ c ∈ majors, (∀ h ∈ hs, h.asset_class ≠ c) →
      (⟨c, 0, some 0⟩ : AllocationRow) ∈ assetAllocationWith majors hs) ∧
    List.Sorted allocGe (assetAllocationWith majors hs) := by
  have hperm : List.Perm (assetAllocationWith majors hs)
      (ensureMajors majors (allocRows hs)) := List.perm_insertionSort _ _
  have hkeys : ∀ c : String,
      c ∈ uniqFirst (hs.map (·.asset_class)) ↔ ∃ h ∈ hs, h.asset_class = c := by
    intro c
    rw [mem_uniqFirst, List.mem_map]
  have hclasses : (ensureMajors majors (allocRows hs)).map (·.asset_class) =
      uniqFirst (hs.map (·.asset_class)) ++
        majors.filter
          (fun c => decide (c ∉ (allocRows hs).map (·.asset_class))) := by
    rw [ensureMajors, List.map_append, allocRows_classes,
      List.map_map]
    congr 1
    calc List.map _ (majors.filter
          (fun c => decide (c ∉ uniqFirst (hs.map (·.asset_class)))))
        = List.map (fun k => k) (majors.filter
            (fun c => decide (c ∉ uniqFirst (hs.map (·.asset_class))))) :=
          List.map_congr_left (fun k _ => rfl)
      _ = _ := List.map_id' _
  refine ⟨?_, ?_, ?_, List.sorted_insertionSort allocGe _⟩
  · rw [(hperm.map (·.asset_class)).nodup_iff, hclasses]
    refine List.Nodup.append (nodup_uniqFirst _) (hm.filter _) ?_
    intro c hc1 hc2
    have := (List.mem_filter.mp hc2).2
    rw [decide_eq_true_eq, allocRows_classes] at this
    exact this hc1
  · intro c
    rw [(hperm.map (·.asset_class)).mem_iff, hclasses, List.mem_append,
      hkeys, List.mem_filter, decide_eq_true_eq, allocRows_classes, hkeys]
    constructor
    · rintro (hA | ⟨hB, _⟩)
      · exact Or.inl hA
      · exact Or.inr hB
    · rintro (hA | hB)
      · exact Or.inl hA
      · by_cases hA2 : ∃ h ∈ hs, h.asset_class = c
        · exact Or.inl hA2
        · exact Or.inr ⟨hB, hA2⟩
  · intro c hc hnone
    rw [hperm.mem_iff, ensureMajors, List.mem_append]
    right
    refine List.mem_map_of_mem _ (List.mem_filter.mpr ⟨hc, ?_⟩)
    rw [decide_eq_true_eq, allocRows_classes, hkeys]
    rintro ⟨h, hh, rfl⟩
    exact hnone h hh rfl

/-- c2 amended, witnessed on the portfolio `{Stocks: 100}` with the
holdings-path majors list. -/
theorem c2_amended_witness :
    major_asset_classes.Nodup ∧
    (((assetAllocationWith major_asset_classes
        [⟨"Stocks", 100⟩]).map (·.asset_class)).Nodup ∧
    (∀ c, c ∈ (assetAllocationWith major_asset_classes
        [⟨"Stocks", 100⟩]).map (·.asset_class) ↔
      (∃ h ∈ ([⟨"Stocks", 100⟩] : List AHolding), h.asset_class = c) ∨
        c ∈ major_asset_classes) ∧
    (∀ c ∈ major_asset_classes,
      (∀ h ∈ ([⟨"Stocks", 100⟩] : List AHolding), h.asset_class ≠ c) →
      (⟨c, 0, some 0⟩ : AllocationRow) ∈
        assetAllocationWith major_asset_classes [⟨"Stocks", 100⟩]) ∧
    List.Sorted allocGe
      (assetAllocationWith major_asset_classes [⟨"Stocks", 100⟩])) :=
  ⟨by decide, c2_amended major_asset_classes (by decide) [⟨"Stocks", 100⟩]⟩

/-- c8 counterexample: with the single holding `{Stocks: -100}` the total
portfolio value is negative, yet the Stocks output row carries allocation
100, not 0 — the source divides unconditionally, the `total_value <= 0 →
all percentages 0` guard does not exist in the code. -/
theorem c8_counterexample :
    totalValue [⟨"Stocks", -100⟩] ≤ 0 ∧
    (⟨"Stocks", -100, some 100⟩ : AllocationRow) ∈
      calculate_asset_allocation [⟨"Stocks", -100⟩] ∧
    (100 : ℚ) ≠ 0 := by
  refine ⟨by norm_num [totalValue], ?_, by norm_num⟩
  rw [calculate_asset_allocation, assetAllocationWith,
    (List.perm_insertionSort allocGe _).mem_iff]
  simp [ensureMajors, allocRows, uniqFirst, uniqFrom, groupValue,
    major_asset_classes]

/-- c8 amended: when the total value is non-positive no division fault
occurs (the calculator is total and still returns its row list), but the
percentages are not all 0: a synthesized major row carries value 0 and
allocation 0, and every grouped row carries `value / total * 100` when the
total is nonzero — possibly nonzero, e.g. 100 for a single negative group —
and an undefined (NaN, here `none`) allocation when the total is zero. -/
theorem c8_amended (majors : List String) (hs : List AHolding)
    (_hle : totalValue hs ≤ 0) :
    ∀ r ∈ assetAllocationWith majors hs,
      (r.value = 0 ∧ r.allocation = some 0) ∨
      (totalValue hs = 0 ∧ r.allocation = none) ∨
      (totalValue hs ≠ 0 ∧
        r.allocation = some (r.value / totalValue hs * 100)) := by
  intro r hr
  rw [assetAllocationWith, (List.perm_insertionSort allocGe _).mem_iff,
    ensureMajors, List.mem_append] at hr
  rcases hr with hrow | hmaj
  · simp only [allocRows, allocRows_total hs] at hrow
    rcases List.mem_map.mp hrow with ⟨k, _, rfl⟩
    by_cases h0 : totalValue hs = 0
    · right; left
      exact ⟨h0, by simp [h0]⟩
    · right; right
      exact ⟨h0, by simp [h0]⟩
  · rcases List.mem_map.mp hmaj with ⟨c, _, rfl⟩
    left
    exact ⟨rfl, rfl⟩

/-- c8 amended, witnessed on the portfolio `{Stocks: -5}` (negative total),
where the theorem's hypothesis is discharged concretely. -/
theorem c8_amended_witness :
    totalValue [⟨"Stocks", -5⟩] ≤ 0 ∧
    ∀ r ∈ assetAllocationWith major_asset_classes [⟨"Stocks", -5⟩],
      (r.value = 0 ∧ r.allocation = some 0) ∨
      (totalValue [⟨"Stocks", -5⟩] = 0 ∧ r.allocation = none) ∨
      (totalValue [⟨"Stocks", -5⟩] ≠ 0 ∧
        r.allocation = some (r.value / totalValue [⟨"Stocks", -5⟩] * 100)) :=
  ⟨by norm_num [totalValue],
   c8_amended major_asset_classes [⟨"Stocks", -5⟩] (by norm_num [totalValue])⟩

/-! ### Ledger Aggregator
(`app2.py`, lines 50-65: `dropna(how='all')`, `groupby(['Titolo','Isin'])`
with sum/mean/sum aggregation, `sort_values('total_value',
ascending=False)`.) -/

/-- One row of the transaction ledger after header promotion; each cell may
be NaN. -/
structure LedgerRow where
  operazione : Option String
  titolo : Option String
  isin : Option String
  quantita : Option ℚ
  prezzo : Option ℚ
  controvalore : Option ℚ
deriving DecidableEq

/-- `dropna(how='all')`: a row is dropped exactly when every cell is NaN. -/
def rowAllEmpty (r : LedgerRow) : Bool :=
  r.operazione.isNone && r.titolo.isNone && r.isin.isNone &&
    r.quantita.isNone && r.prezzo.isNone && r.controvalore.isNone

/-- The `(Titolo, Isin)` grouping key; `none` when either cell is NaN, in
which case pandas `groupby` (default `dropna=True`) silently drops the
row from every group. -/
def fullKey (r : LedgerRow) : Option (String × String) :=
  match r.titolo, r.isin with
  | some t, some i => some (t, i)
  | _, _ => none

/-- The distinct grouping keys of the surviving rows. -/
def ledgerKeys (rows : List LedgerRow) : List (String × String) :=
  uniqFirst ((rows.filter (fun r => !rowAllEmpty r)).filterMap fullKey)

/-- The rows forming the group of key `k`. -/
def groupOf (rows : List LedgerRow) (k : String × String) : List LedgerRow :=
  (rows.filter (fun r => !rowAllEmpty r)).filter
    (fun r => decide (fullKey r = some k))

/-- `total_quantity=('Quantita','sum')`: pandas sum skips NaN, an all-NaN
group sums to 0. -/
def sumQuantita (rows : List LedgerRow) (k : String × String) : ℚ :=
  ((groupOf rows k).filterMap (·.quantita)).sum

/-- `avg_price=('Prezzo','mean')`: unweighted arithmetic mean of the
non-NaN prices; NaN (`none`) when the group has no price at all. -/
def meanPrezzo (rows : List LedgerRow) (k : String × String) : Option ℚ :=
  let ps := (groupOf rows k).filterMap (·.prezzo)
  if ps.isEmpty then none else some (ps.sum / (ps.length : ℚ))

/-- `total_value=('Controvalore','sum')`. -/
def sumControvalore (rows : List LedgerRow) (k : String × String) : ℚ :=
  ((groupOf rows k).filterMap (·.controvalore)).sum

/-- One aggregated security (later renamed `Titolo → Nome`,
`total_value → Controvalore`). -/
structure Security where
  nome : String
  isin : String
  total_quantity : ℚ
  avg_price : Option ℚ
  total_value : ℚ
deriving DecidableEq

def mkSecurity (rows : List LedgerRow) (k : String × String) : Security :=
  ⟨k.1, k.2, sumQuantita rows k, meanPrezzo rows k, sumControvalore rows k⟩

/-- Descending order on `total_value`. -/
def secGe (a b : Security) : Prop := b.total_value ≤ a.total_value

instance : DecidableRel secGe := fun a b => by
  unfold secGe
  infer_instance

instance : IsTotal Security secGe :=
  ⟨fun a b => le_total b.total_value a.total_value⟩

instance : IsTrans Security secGe :=
  ⟨fun _ _ _ h1 h2 => le_trans h2 h1⟩

/-- The `securities` aggregation of the `app2.py` ledger path: drop
all-empty rows, group by `(Titolo, Isin)`, aggregate, sort by total value
descending. -/
def aggregate_securities (rows : List LedgerRow) : List Security :=
  List.insertionSort secGe ((ledgerKeys rows).map (mkSecurity rows))

/-- c4 counterexample: a ledger row with a present name but NaN identifier
code is not all-empty (so the claimed semantics keep it and emit one
holding for its `(name, none)` group), yet the aggregation output is empty:
pandas `groupby` silently drops any row whose `Titolo` or `Isin` key is
NaN. -/
theorem c4_counterexample :
    aggregate_securities
      [⟨some "Acquisto", some "X", none, some 1, some 10, some 10⟩] = [] ∧
    ([(⟨some "Acquisto", some "X", none, some 1, some 10, some 10⟩ :
        LedgerRow)].filter (fun r => !rowAllEmpty r)).length = 1 := by
  constructor
  · simp [aggregate_securities, ledgerKeys, uniqFirst, uniqFrom, fullKey,
      rowAllEmpty, List.insertionSort]
  · simp [rowAllEmpty]

/-- The example ledger of the claim: two rows of the same `(name,
identifier_code)` group with quantities `{10, 5}`, prices `{100, 110}`,
line values `{1000, 550}`. -/
def exampleLedgerRows : List LedgerRow :=
  [⟨some "Acquisto", some "X", some "IS1", some 10, some 100, some 1000⟩,
   ⟨some "Acquisto", some "X", some "IS1", some 5, some 110, some 550⟩]

theorem fullKey_eq_some (r : LedgerRow) (t i : String) :
    fullKey r = some (t, i) ↔ r.titolo = some t ∧ r.isin = some i := by
  unfold fullKey
  cases ht : r.titolo <;> cases hi : r.isin <;> simp

theorem fullKey_not_allEmpty (r : LedgerRow) (k : String × String)
    (h : fullKey r = some k) : rowAllEmpty r = false := by
  rcases k with ⟨t, i⟩
  rw [fullKey_eq_some] at h
  simp [rowAllEmpty, h.1]

/-- Membership in the grouping keys is exactly presence of a fully keyed
row in the original ledger. -/
theorem mem_ledgerKeys (rows : List LedgerRow) (t i : String) :
    (t, i) ∈ ledgerKeys rows ↔
      ∃ r ∈ rows, r.titolo = some t ∧ r.isin = some i := by
  rw [ledgerKeys, mem_uniqFirst, List.mem_filterMap]
  constructor
  · rintro ⟨r, hr, hk⟩
    exact ⟨r, (List.mem_filter.mp hr).1, (fullKey_eq_some r t i).mp hk⟩
  · rintro ⟨r, hr, hk⟩
    have hfk := (fullKey_eq_some r t i).mpr hk
    exact ⟨r, List.mem_filter.mpr
      ⟨hr, by simp [fullKey_not_allEmpty r _ hfk]⟩, hfk⟩

/-- c4 amended: on the claim's concrete example the aggregation yields one
holding with quantity 15, average price 105 (unweighted mean) and value
1550; in general, rows that are entirely empty are dropped — and so (this
is where the claim needs amending) is every row whose name or identifier
cell is NaN, since the grouping key is then NaN and pandas `groupby` drops
it — while the surviving rows produce exactly one holding per distinct
`(name, identifier)` pair, carrying the group's quantity sum, unweighted
price mean and value sum, sorted descending by value. -/
theorem c4_amended :
    (aggregate_securities exampleLedgerRows =
      [⟨"X", "IS1", 15, some 105, 1550⟩]) ∧
    ∀ rows : List LedgerRow,
      ((aggregate_securities rows).map (fun s => (s.nome, s.isin))).Nodup ∧
      (∀ t i, (t, i) ∈ (aggregate_securities rows).map
          (fun s => (s.nome, s.isin)) ↔
        ∃ r ∈ rows, r.titolo = some t ∧ r.isin = some i) ∧
      (∀ s ∈ aggregate_securities rows,
        s.total_quantity = sumQuantita rows (s.nome, s.isin) ∧
        s.avg_price = meanPrezzo rows (s.nome, s.isin) ∧
        s.total_value = sumControvalore rows (s.nome, s.isin)) ∧
      List.Sorted secGe (aggregate_securities rows) := by
  constructor
  · simp [aggregate_securities, exampleLedgerRows, ledgerKeys, uniqFirst,
      uniqFrom, fullKey, rowAllEmpty, mkSecurity, sumQuantita, meanPrezzo,
      sumControvalore, groupOf, List.insertionSort, List.orderedInsert]
    norm_num
  intro rows
  have hperm : List.Perm (aggregate_securities rows)
      ((ledgerKeys rows).map (mkSecurity rows)) :=
    List.perm_insertionSort _ _
  have hkeymap : ((ledgerKeys rows).map (mkSecurity rows)).map
      (fun s => (s.nome, s.isin)) = ledgerKeys rows := by
    rw [List.map_map]
    calc List.map _ (ledgerKeys rows)
        = List.map (fun k => k) (ledgerKeys rows) :=
          List.map_congr_left (fun k _ => rfl)
      _ = ledgerKeys rows := List.map_id' _
  refine ⟨?_, ?_, ?_, List.sorted_insertionSort secGe _⟩
  · rw [(hperm.map (fun s => (s.nome, s.isin))).nodup_iff, hkeymap]
    exact nodup_uniqFirst _
  · intro t i
    rw [(hperm.map (fun s => (s.nome, s.isin))).mem_iff, hkeymap,
      mem_ledgerKeys]
  · intro s hs
    have hs2 := hperm.mem_iff.mp hs
    rcases List.mem_map.mp hs2 with ⟨k, _, rfl⟩
    exact ⟨rfl, rfl, rfl⟩

/-- c4 amended, instantiated: the aggregation of the claim's example
ledger is sorted descending by total value. -/
theorem c4_witness :
    List.Sorted secGe (aggregate_securities exampleLedgerRows) :=
  (c4_amended.2 exampleLedgerRows).2.2.2

/-! ### Format Detector
(`app2.py`, lines 33-41: the sentinel scan over `raw_df.iterrows()`; lines
193-199: the required-columns check against `raw_df.columns`.) -/

/-- Python `str` of a NaN cell is `"nan"`. -/
def cellStr : Option String → String
  | some s => s
  | none => "nan"

/-- `'Operazione' in str(row.values)`: the code stringifies the cell array
and searches for the raw, case-sensitive substring.  The sentinel contains
neither a quote nor a space, and `str` of an object array separates cells
with quoted/spaced delimiters, so the sentinel occurs in `str(row.values)`
exactly when it occurs inside a single cell's stringification — which is
how the test is embedded. -/
def rowHasSentinel (row : List (Option String)) : Bool :=
  row.any (fun c => containsTerm (cellStr c).toList "Operazione")

/-- The scan loop with break: index of the first data row containing the
sentinel. -/
def firstSentinel : List (List (Option String)) → Option Nat
  | [] => none
  | r :: rest =>
    if rowHasSentinel r then some 0 else (firstSentinel rest).map (· + 1)

/-- `required_columns` of the holdings-table branch. -/
def required_columns : List String :=
  ["Nome", "Categoria", "TER", "Allocazione", "Controvalore",
   "Rendimento %", "Rendimento"]

inductive DetectResult where
  | ledger (headerRow : Nat)
  | holdingsTable
  | unrecognized (missing : List String)
deriving DecidableEq

/-- The format decision of `app2.py`: scan the data rows for the sentinel
and on a hit treat that row index as the ledger header; otherwise check
the table's header (`raw_df.columns`) for the seven required holdings
columns, failing with the enumerated missing ones. -/
def detect_format (header : List String)
    (rows : List (List (Option String))) : DetectResult :=
  match firstSentinel rows with
  | some i => .ledger i
  | none =>
    let missing := required_columns.filter (fun c => decide (c ∉ header))
    if missing.isEmpty then .holdingsTable else .unrecognized missing

theorem firstSentinel_spec (rows : List (List (Option String))) :
    ∀ i : Nat, firstSentinel rows = some i ↔
      ((∃ r, rows[i]? = some r ∧ rowHasSentinel r = true) ∧
        ∀ j < i, ∀ r, rows[j]? = some r → rowHasSentinel r = false) := by
  induction rows with
  | nil => intro i; simp [firstSentinel]
  | cons r rest ih =>
    intro i
    by_cases hr : rowHasSentinel r = true
    · rw [firstSentinel, if_pos hr]
      cases i with
      | zero => simp [hr]
      | succ n =>
        simp only [Option.some.injEq]
        constructor
        · intro h; exact absurd h (by simp)
        · rintro ⟨_, hall⟩
          have h0 := hall 0 (Nat.succ_pos n) r (by simp)
          rw [hr] at h0
          exact absurd h0 (by simp)
    · rw [firstSentinel, if_neg hr]
      have hrf : rowHasSentinel r = false := by
        simpa using hr
      cases i with
      | zero =>
        constructor
        · intro h
          rcases Option.map_eq_some'.mp h with ⟨i', _, hcontra⟩
          exact absurd hcontra (by simp)
        · rintro ⟨⟨r0, hr0, hsent⟩, _⟩
          simp only [List.getElem?_cons_zero, Option.some.injEq] at hr0
          rw [← hr0] at hsent
          rw [hsent] at hrf
          exact absurd hrf (by simp)
      | succ n =>
        rw [Option.map_eq_some']
        constructor
        · rintro ⟨a, ha, haeq⟩
          have han : a = n := by omega
          rw [han] at ha
          obtain ⟨⟨rr, hrr, hsent⟩, hall⟩ := (ih n).mp ha
          refine ⟨⟨rr, by simpa using hrr, hsent⟩, ?_⟩
          intro j hj rj hrj
          cases j with
          | zero =>
            simp only [List.getElem?_cons_zero, Option.some.injEq] at hrj
            rw [← hrj]
            exact hrf
          | succ m =>
            exact hall m (by omega) rj (by simpa using hrj)
        · rintro ⟨⟨rr, hrr, hsent⟩, hall⟩
          refine ⟨n, (ih n).mpr ⟨⟨rr, by simpa using hrr, hsent⟩, ?_⟩, rfl⟩
          intro j hj rj hrj
          exact hall (j + 1) (by omega) rj (by simpa using hrj)

theorem firstSentinel_none (rows : List (List (Option String))) :
    firstSentinel rows = none ↔ ∀ r ∈ rows, rowHasSentinel r = false := by
  induction rows with
  | nil => simp [firstSentinel]
  | cons r rest ih =>
    by_cases hr : rowHasSentinel r = true
    · rw [firstSentinel, if_pos hr]
      simp [hr]
    · rw [firstSentinel, if_neg hr]
      have hrf : rowHasSentinel r = false := by simpa using hr
      simp [hrf, Option.map_eq_none', ih]

/-- c5: the detector scans the data rows top-to-bottom for the raw,
case-sensitive sentinel substring `Operazione` and returns the first
matching row index as the ledger header; when no row matches, it returns
the holdings-table result exactly when all seven required column labels
appear in the header, and otherwise fails reporting exactly (and without
duplication) the missing column names; in particular a table whose second
data row holds an `Operazione` cell is detected as a ledger with header
row index 1, and a sentinel-free table with the seven required columns is
detected as a holdings table. -/
theorem c5_format_detector :
    (∀ (header : List String) (rows : List (List (Option String)))
        (i : Nat), detect_format header rows = .ledger i ↔
      ((∃ r, rows[i]? = some r ∧ rowHasSentinel r = true) ∧
        ∀ j < i, ∀ r, rows[j]? = some r → rowHasSentinel r = false)) ∧
    (∀ (header : List String) (rows : List (List (Option String))),
      (∀ r ∈ rows, rowHasSentinel r = false) →
      ((detect_format header rows = .holdingsTable ↔
          ∀ c ∈ required_columns, c ∈ header) ∧
       (∀ ms, detect_format header rows = .unrecognized ms →
          ms ≠ [] ∧ ms.Nodup ∧
            ∀ c, c ∈ ms ↔ c ∈ required_columns ∧ c ∉ header))) ∧
    detect_format ["Col1"]
      [[some "2024-01-02"], [some "Operazione", some "Titolo"]] =
      .ledger 1 ∧
    detect_format required_columns [[some "x"], [none]] = .holdingsTable := by
  refine ⟨?_, ?_, by decide, by decide⟩
  · intro header rows i
    rw [← firstSentinel_spec]
    cases hfs : firstSentinel rows with
    | some j => simp [detect_format, hfs]
    | none =>
      rw [detect_format, hfs]
      constructor
      · intro h
        dsimp only at h
        split_ifs at h
      · intro h
        simp at h
  · intro header rows hnone
    have hfs : firstSentinel rows = none := (firstSentinel_none rows).mpr hnone
    rw [detect_format, hfs]
    constructor
    · by_cases hmiss :
        (required_columns.filter (fun c => decide (c ∉ header))).isEmpty = true
      · rw [if_pos hmiss]
        have hcov : ∀ c ∈ required_columns, c ∈ header := by
          intro c hc
          rw [List.isEmpty_iff, List.filter_eq_nil_iff] at hmiss
          by_contra hch
          exact absurd (decide_eq_true hch) (by simpa using hmiss c hc)
        exact ⟨fun _ => hcov, fun _ => rfl⟩
      · rw [if_neg hmiss]
        constructor
        · intro h
          exact absurd h (by simp)
        · intro hall
          exfalso
          apply hmiss
          rw [List.isEmpty_iff, List.filter_eq_nil_iff]
          intro c hc
          simp [hall c hc]
    · intro ms hms
      dsimp only at hms
      split_ifs at hms with hmiss
      have hmseq : required_columns.filter (fun c => decide (c ∉ header)) = ms :=
        DetectResult.unrecognized.inj hms
      subst hmseq
      refine ⟨?_, List.Nodup.filter _ (by decide), ?_⟩
      · intro hnil
        exact hmiss (List.isEmpty_iff.mpr hnil)
      · intro c
        rw [List.mem_filter, decide_eq_true_eq]

/-- c5, instantiated on a sentinel-free two-row table whose header is
exactly the required column list: the no-sentinel hypothesis is
discharged concretely and the holdings-table characterisation follows
from the theorem. -/
theorem c5_witness :
    (∀ r ∈ ([[some "a"], [some "b"]] : List (List (Option String))),
      rowHasSentinel r = false) ∧
    (detect_format required_columns [[some "a"], [some "b"]] =
        .holdingsTable ↔ ∀ c ∈ required_columns, c ∈ required_columns) :=
  ⟨by decide,
   (c5_format_detector.2.1 required_columns [[some "a"], [some "b"]]
      (by decide)).1⟩

/-! ### Table-level classification
(`portfolio_analyzer.py`, `categorize_by_asset_class`, lines 77-104, and
`app2.py`, `categorize_security`, lines 68-77.) -/

/-- `categorize_by_asset_class` at dataframe level: use the `category`
column when present, else the `Categoria` column, else label every row
`'Unknown'`.  The two candidate columns are passed separately; `nRows` is
the row count used by the no-column branch. -/
def categorize_by_asset_class (category categoria : Option (List String))
    (nRows : Nat) : List String :=
  match category with
  | some col => col.map map_category_to_asset_class
  | none =>
    match categoria with
    | some col => col.map map_category_to_asset_class
    | none => List.replicate nRows "Unknown"

/-- `categorize_security` of the `app2.py` ledger path: the coarser,
localized name-based rule set. -/
def categorize_security (name : String) : String :=
  let n := lowerChars name
  if (["cr 500", "msci", "equity", "wd"]).any (containsTerm n) then
    "Azionario"
  else if (["gov", "bond", "ehycb"]).any (containsTerm n) then
    "Obbligazionario"
  else if (["gold", "or", "commodity"]).any (containsTerm n) then
    "Materie Prime"
  else
    "Altro"

/-- The localized category set of the ledger path. -/
def localizedCategories : List String :=
  ["Azionario", "Obbligazionario", "Materie Prime", "Altro"]

/-- c9 counterexample: a table with no category column at all gets every
`asset_class` set to `'Unknown'`, which is in neither the canonical
asset-class set nor its localized equivalent — contradicting the claim's
"for every input table shape … including inputs with no category column". -/
theorem c9_counterexample :
    categorize_by_asset_class none none 1 = ["Unknown"] ∧
    "Unknown" ∉ canonicalAssetClasses ∧
    "Unknown" ∉ localizedCategories := by
  refine ⟨rfl, by decide, by decide⟩

/-- c9 amended: whenever a category column (`category` or `Categoria`)
exists, every computed `asset_class` is in the canonical seven-class set;
every ledger-path `categorize_security` label is in the localized set; the
result is never the empty string — but a table with no category column
gets the out-of-set label `'Unknown'` on every row. -/
theorem c9_amended :
    (∀ (col : List String) (categoria : Option (List String)) (n : Nat)
        (c : String), c ∈ categorize_by_asset_class (some col) categoria n →
      c ∈ canonicalAssetClasses) ∧
    (∀ (col : List String) (n : Nat) (c : String),
      c ∈ categorize_by_asset_class none (some col) n →
      c ∈ canonicalAssetClasses) ∧
    (∀ name, categorize_security name ∈ localizedCategories) ∧
    (∀ (n : Nat) (c : String), c ∈ categorize_by_asset_class none none n →
      c = "Unknown") ∧
    (∀ (category categoria : Option (List String)) (n : Nat) (c : String),
      c ∈ categorize_by_asset_class category categoria n → c ≠ "") := by
  have hsec : ∀ name, categorize_security name ∈ localizedCategories := by
    intro name
    simp only [categorize_security]
    split_ifs <;> simp [localizedCategories]
  have hcanon_ne : ∀ c ∈ canonicalAssetClasses, c ≠ "" := by decide
  refine ⟨?_, ?_, hsec, ?_, ?_⟩
  · intro col _ _ c hc
    rcases List.mem_map.mp hc with ⟨s, _, rfl⟩
    exact map_category_mem_canonical s
  · intro col _ c hc
    rcases List.mem_map.mp hc with ⟨s, _, rfl⟩
    exact map_category_mem_canonical s
  · intro n c hc
    exact List.eq_of_mem_replicate hc
  · intro category categoria n c hc
    match category with
    | some col =>
      rcases List.mem_map.mp hc with ⟨s, _, rfl⟩
      exact hcanon_ne _ (map_category_mem_canonical s)
    | none =>
      match categoria with
      | some col =>
        rcases List.mem_map.mp hc with ⟨s, _, rfl⟩
        exact hcanon_ne _ (map_category_mem_canonical s)
      | none =>
        rw [List.eq_of_mem_replicate hc]
        decide

/-- c9 amended, witnessed: the category text `"Azionario Europa"` lands in
`Stocks`, a member of the canonical set. -/
theorem c9_amended_witness :
    "Stocks" ∈ categorize_by_asset_class (some ["Azionario Europa"]) none 1 ∧
    "Stocks" ∈ canonicalAssetClasses :=
  ⟨by decide,
   c9_amended.1 ["Azionario Europa"] none 1 "Stocks" (by decide)⟩

/-! ### Market Reconciler
(`market_data.py`: `ISIN_TO_SYMBOL`, `get_symbol_from_isin`,
`infer_symbol_from_name`, `update_portfolio_data`.)  The external
Yahoo-Finance lookup is a parameter `lookup : String → Option ℚ` mapping a
symbol to the last close price; `none` stands for an empty result or a
raised-and-caught provider exception, so local totality of the embedding
is exactly the source's per-holding `try/except` recovery. -/

/-- `ISIN_TO_SYMBOL`, in source order.  The Python dict literal repeats
the key `LU0290358497` and a dict keeps the last binding, so the embedded
lookup searches the list from the end. -/
def ISIN_TO_SYMBOL : List (String × String) :=
  [("IE00B4L5Y983", "IWDA.L"),
   ("IE00B3RBWM25", "IWRD.L"),
   ("IE00B5BMR087", "SPY5.DE"),
   ("IE00BK5BQT80", "VWCE.DE"),
   ("IE00B4WXJJ64", "XMEM.DE"),
   ("IE00B60SWX25", "EIMI.L"),
   ("IE00B3XXRP09", "XSXE.DE"),
   ("IE00B3ZW0K18", "CSX5.MI"),
   ("IE00B42W4L06", "IWSM.L"),
   ("IE00B4L5YC18", "IWDA.L"),
   ("IE00B4WPHX27", "IEAA.MI"),
   ("IE00B9M6RS56", "JPST.SW"),
   ("LU1650487413", "EUNH.DE"),
   ("IE00B3F81R35", "IBCX.DE"),
   ("IE00B0M62X26", "IBGX.DE"),
   ("FR0010754184", "A35A.DE"),
   ("IE00B3FH7618", "IEGE.L"),
   ("IE00B5L01S80", "XBUH.DE"),
   ("IE00B4ND3602", "IGLN.L"),
   ("IE00B4MKCJ84", "SGLD.L"),
   ("IE00B579F325", "SGLD.L"),
   ("IE00B3VTMJ91", "XEIN.MI"),
   ("LU0290358497", "XEON.DE"),
   ("LU0290358497", "2AYI.DE")]

/-- `get_symbol_from_isin`: exact dict lookup (last binding wins, as in a
Python dict literal). -/
def get_symbol_from_isin (isin : String) : Option String :=
  ISIN_TO_SYMBOL.reverse.lookup isin

/-- `common_etf_names` of `infer_symbol_from_name`, in dict insertion
order.  The source repeats the key `"ishares core msci world"` (twice with
the same value `IWDA.L`); a Python dict keeps one entry at the first
position, so the duplicate is dropped here. -/
def common_etf_names : List (String × String) :=
  [("amundi euro government bond 7-10y", "A35A.DE"),
   ("ishares euro government bond 1-3yr", "IEGE.L"),
   ("xtrackers eur high yield corporate bond", "XBUH.DE"),
   ("ishares core msci emerging markets imi", "EIMI.L"),
   ("xtrackers stoxx europe 600", "XSXE.DE"),
   ("ishares core s&p 500", "CSX5.MI"),
   ("ishares msci world small cap", "IWSM.L"),
   ("ishares core msci world", "IWDA.L"),
   ("xtrackers ii eur overnight rate swap", "XEON.DE"),
   ("invesco physical gold", "SGLD.L"),
   ("ishares msci world", "URTH"),
   ("msci world", "IWDA.L"),
   ("core s&p 500", "IVV"),
   ("s&p 500", "SPY"),
   ("vanguard ftse", "VGK"),
   ("xtrackers msci", "XMWO.DE"),
   ("xtrackers s&p", "XSPD.DE"),
   ("euro government bond", "EGOV.MI"),
   ("euro gov", "EGOV.MI"),
   ("treasury bond", "IDTL.L"),
   ("emerging markets", "EEM"),
   ("msci emerging", "EIMI.L"),
   ("high yield corporate bond", "HYG"),
   ("corporate bond", "LQDE.L"),
   ("euro high yield", "IHYG.L"),
   ("oro", "GLD"),
   ("gold", "GLD"),
   ("amundi euro gov", "EGOV.PA")]

/-- `infer_symbol_from_name`: lower-case the security name and return the
symbol of the first table fragment contained in it. -/
def infer_symbol_from_name (name : String) : Option String :=
  let n := lowerChars name
  (common_etf_names.find? (fun p => containsTerm n p.1)).map (·.2)

/-- `rendimenti_esatti`: the hardcoded exact-returns map keyed by security
name, value = (return percentage, absolute return). -/
def rendimenti_esatti : List (String × ℚ × ℚ) :=
  [("Amundi Euro Government Bond 7-10Y UCITS ETF Acc", (-1.60, -96.84)),
   ("iShares Euro Government Bond 1-3yr UCITS ETF (Acc)", (0.97, 290.90)),
   ("Xtrackers EUR High Yield Corporate Bond UCITS ETF 1C", (0.68, 102.81)),
   ("iShares Core MSCI Emerging Markets IMI UCITS ETF (Acc)", (-2.44, -85.40)),
   ("Xtrackers STOXX Europe 600 UCITS ETF 1C", (0.11, 2.10)),
   ("iShares Core S&P 500 UCITS ETF USD (Acc)", (-8.87, -2446.31)),
   ("iShares MSCI World Small Cap UCITS ETF", (0.15, 3.05)),
   ("iShares Core MSCI World UCITS ETF USD (Acc)", (6.08, 1676.57)),
   ("Xtrackers II EUR Overnight Rate Swap UCITS ETF 1C", (0.52, 152.25)),
   ("Invesco Physical Gold A", (14.27, 866.20))]

/-- A portfolio row as `update_portfolio_data` reads it.  `rendimento_pct`
and `rendimento_val` carry the pre-existing `Rendimento %` / `Rendimento`
column values (`none` when the column was absent: the source then creates
it filled with `None`). -/
structure PHolding where
  nome : Option String
  isin : Option String
  total_quantity : Option ℚ
  avg_price : Option ℚ
  controvalore : Option ℚ
  rendimento_pct : Option ℚ
  rendimento_val : Option ℚ
deriving DecidableEq

/-- A row of the updated dataframe. -/
structure PRow where
  nome : Option String
  isin : Option String
  total_quantity : Option ℚ
  avg_price : Option ℚ
  controvalore : Option ℚ
  prezzo_attuale : Option ℚ
  rendimento_pct : Option ℚ
  rendimento_val : Option ℚ
  valore_attuale : Option ℚ
deriving DecidableEq

/-- The row before any market data lands: `Prezzo Attuale` initialised to
`None`, returns kept from the input columns, no `Valore Attuale` cell. -/
def baseRow (h : PHolding) : PRow :=
  ⟨h.nome, h.isin, h.total_quantity, h.avg_price, h.controvalore,
   none, h.rendimento_pct, h.rendimento_val, none⟩

/-- The exact-returns hit of the loop's first step: present when the name
cell is non-NaN and is a key of `rendimenti_esatti`. -/
def exactHit (h : PHolding) : Option (ℚ × ℚ) :=
  match h.nome with
  | some n => rendimenti_esatti.lookup n
  | none => none

/-- Symbol resolution, in the loop's order: the ISIN map first (when the
`Isin` cell is non-NaN), then name inference when that produced nothing. -/
def resolveSymbol (h : PHolding) : Option String :=
  let fromIsin :=
    match h.isin with
    | some i => get_symbol_from_isin i
    | none => none
  match fromIsin with
  | some s => some s
  | none =>
    match h.nome with
    | some n => infer_symbol_from_name n
    | none => none

/-- One iteration of the `update_portfolio_data` loop on one row.  The
`elif` branch divides `Controvalore / total_quantity` unguarded; a zero
quantity there is a float inf/NaN corner in pandas that the rational model
does not chase (no theorem below evaluates it). -/
def update_row (lookup : String → Option ℚ) (h : PHolding) : PRow :=
  match exactHit h with
  | some pv =>
    { baseRow h with
        rendimento_pct := some pv.1,
        rendimento_val := some pv.2,
        valore_attuale := h.controvalore.map (· + pv.2) }
  | none =>
    match resolveSymbol h with
    | none => baseRow h
    | some s =>
      match lookup s with
      | none => baseRow h
      | some p =>
        let elifBranch : Option ℚ × Option ℚ :=
          match h.controvalore, h.total_quantity with
          | some cv, some q =>
            (some ((p - cv / q) / (cv / q) * 100), some ((p - cv / q) * q))
          | _, _ => (h.rendimento_pct, h.rendimento_val)
        let pctval : Option ℚ × Option ℚ :=
          match h.avg_price with
          | some a =>
            if 0 < a then
              (some ((p - a) / a * 100),
               match h.total_quantity with
               | some q => some ((p - a) * q)
               | none => h.rendimento_val)
            else elifBranch
          | none => elifBranch
        { baseRow h with
            prezzo_attuale := some p,
            rendimento_pct := pctval.1,
            rendimento_val := pctval.2,
            valore_attuale :=
              match h.total_quantity with
              | some q => some (p * q)
              | none => none }

/-- `update_portfolio_data`: map the per-row update over the portfolio,
then — only if the `Valore Attuale` column exists, i.e. some row assigned
it — fill the missing current values with the original `Controvalore`. -/
def update_portfolio_data (lookup : String → Option ℚ)
    (hs : List PHolding) : List PRow :=
  let step := hs.map (update_row lookup)
  if step.any (fun r => r.valore_attuale.isSome) then
    step.map (fun r =>
      match r.valore_attuale with
      | some _ => r
      | none => { r with valore_attuale := r.controvalore })
  else step

theorem update_row_unresolved (lookup : String → Option ℚ) (h : PHolding)
    (hx : exactHit h = none) (hres : resolveSymbol h = none) :
    update_row lookup h = baseRow h := by
  simp only [update_row, hx, hres]

theorem update_row_lookup_failed (lookup : String → Option ℚ)
    (h : PHolding) (s : String) (hx : exactHit h = none)
    (hres : resolveSymbol h = some s) (hlk : lookup s = none) :
    update_row lookup h = baseRow h := by
  simp only [update_row, hx, hres, hlk]

theorem update_row_success (lookup : String → Option ℚ) (h : PHolding)
    (s : String) (p : ℚ) (hx : exactHit h = none)
    (hres : resolveSymbol h = some s) (hlk : lookup s = some p) :
    (update_row lookup h).prezzo_attuale = some p ∧
    (update_row lookup h).valore_attuale =
      (match h.total_quantity with
       | some q => some (p * q)
       | none => none) ∧
    (update_row lookup h).controvalore = h.controvalore := by
  simp only [update_row, hx, hres, hlk]
  refine ⟨?_, ?_, ?_⟩ <;> first | rfl | trivial

theorem update_row_exact (lookup : String → Option ℚ) (h : PHolding)
    (pv : ℚ × ℚ) (hx : exactHit h = some pv) :
    update_row lookup h =
      { baseRow h with
          rendimento_pct := some pv.1,
          rendimento_val := some pv.2,
          valore_attuale := h.controvalore.map (· + pv.2) } := by
  simp only [update_row, hx]

theorem update_row_avg_branch (lookup : String → Option ℚ) (h : PHolding)
    (s : String) (p a q : ℚ) (hx : exactHit h = none)
    (hres : resolveSymbol h = some s) (hlk : lookup s = some p)
    (ha : h.avg_price = some a) (hapos : 0 < a)
    (hq : h.total_quantity = some q) :
    update_row lookup h =
      { baseRow h with
          prezzo_attuale := some p,
          rendimento_pct := some ((p - a) / a * 100),
          rendimento_val := some ((p - a) * q),
          valore_attuale := some (p * q) } := by
  simp only [update_row, hx, hres, hlk, ha, hq, if_pos hapos]

theorem update_row_derived_branch (lookup : String → Option ℚ)
    (h : PHolding) (s : String) (p cv q : ℚ) (hx : exactHit h = none)
    (hres : resolveSymbol h = some s) (hlk : lookup s = some p)
    (havg : h.avg_price = none) (hcv : h.controvalore = some cv)
    (hq : h.total_quantity = some q) :
    update_row lookup h =
      { baseRow h with
          prezzo_attuale := some p,
          rendimento_pct := some ((p - cv / q) / (cv / q) * 100),
          rendimento_val := some ((p - cv / q) * q),
          valore_attuale := some (p * q) } := by
  simp only [update_row, hx, hres, hlk, havg, hcv, hq]

/-- The concrete holding of the c6 counterexample: an aggregated position
whose ledger-average price (105) differs from its cost basis per unit
(1550 / 15 ≈ 103.33), with a mapped ISIN. -/
def c6_holding : PHolding :=
  ⟨some "Foo", some "IE00B4L5Y983", some 15, some 105, some 1550, none, none⟩

/-- c6 counterexample: with a resolved price of 120, the code returns
`return_value = (120 - avg_price) * quantity = 225`, while the claim's
`current_value - cost_value = 1800 - 1550 = 250`: when `avg_price` is
present, the returns are measured against it, not against the cost
basis. -/
theorem c6_counterexample :
    (update_portfolio_data (fun _ => some 120) [c6_holding]).map
      (·.rendimento_val) = [some 225] ∧
    (update_portfolio_data (fun _ => some 120) [c6_holding]).map
      (·.valore_attuale) = [some 1800] ∧
    (update_portfolio_data (fun _ => some 120) [c6_holding]).map
      (·.controvalore) = [some 1550] ∧
    (225 : ℚ) ≠ 1800 - 1550 := by
  have hx : exactHit c6_holding = none := by decide
  have hres : resolveSymbol c6_holding = some "IWDA.L" := by decide
  have hrow := update_row_avg_branch (fun _ => some 120) c6_holding "IWDA.L"
    120 105 15 hx hres rfl rfl (by norm_num) rfl
  refine ⟨?_, ?_, ?_, by norm_num⟩ <;>
    · simp [update_portfolio_data, hrow, baseRow]
      norm_num [c6_holding]

/-- c6 amended: for a holding outside the hardcoded exact-returns table
whose symbol resolves and whose price lookup succeeds, `current_value =
current_price * quantity`, but the return figures depend on the branch the
source takes: when `avg_price` is present and positive they are measured
against it (`return_value = (price - avg_price) * quantity`, `return_pct =
(price - avg_price) / avg_price * 100`), which equals the claim's
cost-basis formulas only when `avg_price * quantity = cost_value`; the
claim's formulas (`return_value = current_value - cost_value`,
`return_pct = return_value / cost_value * 100`) hold exactly in the code's
derived branch — `avg_price` absent and both `cost_value` and `quantity`
present — the converse of the claimed derivation of quantity from
`cost_value / avg_price`. -/
theorem c6_amended (lookup : String → Option ℚ) (h : PHolding)
    (s : String) (p : ℚ) (hx : exactHit h = none)
    (hres : resolveSymbol h = some s) (hlk : lookup s = some p) :
    (∀ a q, h.avg_price = some a → 0 < a → h.total_quantity = some q →
      (update_row lookup h).prezzo_attuale = some p ∧
      (update_row lookup h).rendimento_pct = some ((p - a) / a * 100) ∧
      (update_row lookup h).rendimento_val = some ((p - a) * q) ∧
      (update_row lookup h).valore_attuale = some (p * q)) ∧
    (∀ cv q, h.avg_price = none → h.controvalore = some cv →
      h.total_quantity = some q → 0 < cv → 0 < q →
      (update_row lookup h).valore_attuale = some (p * q) ∧
      (update_row lookup h).rendimento_val = some (p * q - cv) ∧
      (update_row lookup h).rendimento_pct =
        some ((p * q - cv) / cv * 100)) := by
  constructor
  · intro a q ha hapos hq
    rw [update_row_avg_branch lookup h s p a q hx hres hlk ha hapos hq]
    exact ⟨rfl, rfl, rfl, rfl⟩
  · intro cv q havg hcv hq hcvpos hqpos
    have hcvne : cv ≠ 0 := ne_of_gt hcvpos
    have hqne : q ≠ 0 := ne_of_gt hqpos
    rw [update_row_derived_branch lookup h s p cv q hx hres hlk havg hcv hq]
    refine ⟨rfl, ?_, ?_⟩
    · show some ((p - cv / q) * q) = some (p * q - cv)
      congr 1
      field_simp
    · show some ((p - cv / q) / (cv / q) * 100) = some ((p * q - cv) / cv * 100)
      congr 1
      field_simp
      try ring

/-- The concrete holding of the c6 witness: the claim's example —
`cost_value = 1000`, `quantity = 10`, no ledger average price, a mapped
ISIN, priced at 120. -/
def c6b_holding : PHolding :=
  ⟨some "Y", some "IE00B4L5Y983", some 10, none, some 1000, none, none⟩

/-- c6 amended, witnessed on the claim's example: price 120, quantity 10,
cost 1000 gives current value 1200, return 200, return percentage 20. -/
theorem c6_witness :
    exactHit c6b_holding = none ∧
    resolveSymbol c6b_holding = some "IWDA.L" ∧
    (update_row (fun _ => some (120 : ℚ)) c6b_holding).valore_attuale =
      some 1200 ∧
    (update_row (fun _ => some (120 : ℚ)) c6b_holding).rendimento_val =
      some 200 ∧
    (update_row (fun _ => some (120 : ℚ)) c6b_holding).rendimento_pct =
      some 20 := by
  have hx : exactHit c6b_holding = none := by decide
  have hres : resolveSymbol c6b_holding = some "IWDA.L" := by decide
  have hmain := (c6_amended (fun _ => some (120 : ℚ)) c6b_holding "IWDA.L"
      120 hx hres rfl).2 1000 10 rfl rfl rfl (by norm_num) (by norm_num)
  refine ⟨hx, hres, ?_, ?_, ?_⟩
  · rw [hmain.1]
    norm_num
  · rw [hmain.2.1]
    norm_num
  · rw [hmain.2.2]
    norm_num

/-- The concrete holding of the c7 counterexample: no identifier code and
a name that matches no inference fragment — the symbol does not resolve. -/
def c7_holding : PHolding :=
  ⟨some "Unknown Security Alpha", none, some 10, some 100, some 1000,
   none, none⟩

/-- c7 counterexample: a batch consisting of one unresolvable holding
keeps `Valore Attuale` absent (`none`), not equal to its cost value 1000:
the cost-value fallback is guarded by `if 'Valore Attuale' in
updated_df.columns`, and when no holding in the batch ever assigned that
column it does not exist, so the fallback never runs. -/
theorem c7_counterexample :
    (update_portfolio_data (fun _ => some 120) [c7_holding]).map
      (·.valore_attuale) = [none] ∧
    c7_holding.controvalore = some 1000 ∧
    (none : Option ℚ) ≠ some 1000 := by
  have hx : exactHit c7_holding = none := by decide
  have hres : resolveSymbol c7_holding = none := by decide
  have hrow := update_row_unresolved (fun _ => some 120) c7_holding hx hres
  refine ⟨?_, rfl, by simp⟩
  simp [update_portfolio_data, hrow, baseRow]

/-- c7 amended: an unresolvable (or price-lookup-failing) holding outside
the exact-returns table is recovered locally — its return columns keep
their input values (unavailable when they were absent), no current price
is recorded, and the batch is never aborted: the output has one row per
input row and every resolvable sibling still receives its looked-up
price.  Its current value, however, falls back to the cost value only
when at least one holding of the batch obtained a market value (only then
does the `Valore Attuale` column exist); otherwise it stays absent. -/
theorem c7_amended (lookup : String → Option ℚ) (hs : List PHolding)
    (i : Nat) (h : PHolding) (hi : hs[i]? = some h)
    (hx : exactHit h = none)
    (hfail : resolveSymbol h = none ∨
      ∃ s, resolveSymbol h = some s ∧ lookup s = none) :
    (update_portfolio_data lookup hs).length = hs.length ∧
    (∃ r, (update_portfolio_data lookup hs)[i]? = some r ∧
      r.rendimento_pct = h.rendimento_pct ∧
      r.rendimento_val = h.rendimento_val ∧
      r.prezzo_attuale = none ∧
      r.valore_attuale =
        (if (hs.map (update_row lookup)).any
            (fun r => r.valore_attuale.isSome)
         then h.controvalore else none)) ∧
    (∀ (j : Nat) (h' : PHolding) (s' : String) (p' : ℚ),
      hs[j]? = some h' → exactHit h' = none →
      resolveSymbol h' = some s' → lookup s' = some p' →
      ∃ r', (update_portfolio_data lookup hs)[j]? = some r' ∧
        r'.prezzo_attuale = some p') := by
  have hbase : update_row lookup h = baseRow h := by
    rcases hfail with hres | ⟨s, hres, hlk⟩
    · exact update_row_unresolved lookup h hx hres
    · exact update_row_lookup_failed lookup h s hx hres hlk
  rw [update_portfolio_data]
  by_cases hflag : (hs.map (update_row lookup)).any
      (fun r => r.valore_attuale.isSome) = true
  · rw [if_pos hflag]
    refine ⟨by simp, ?_, ?_⟩
    · refine ⟨{ baseRow h with valore_attuale := h.controvalore }, ?_,
        rfl, rfl, rfl, by rw [if_pos hflag]⟩
      rw [List.getElem?_map, List.getElem?_map, hi]
      simp [hbase, baseRow]
    · intro j h' s' p' hj hx' hres' hlk'
      have hsucc := update_row_success lookup h' s' p' hx' hres' hlk'
      refine ⟨_, by rw [List.getElem?_map, List.getElem?_map, hj]; rfl, ?_⟩
      cases hv : (update_row lookup h').valore_attuale with
      | some v => simp only [hv]; exact hsucc.1
      | none => simp only [hv]; exact hsucc.1
  · rw [if_neg hflag]
    have hflag' : ((hs.map (update_row lookup)).any
        (fun r => r.valore_attuale.isSome)) = false := by
      simpa using hflag
    refine ⟨by simp, ?_, ?_⟩
    · refine ⟨baseRow h, ?_, rfl, rfl, rfl, by rw [hflag']; rfl⟩
      rw [List.getElem?_map, hi]
      simp [hbase]
    · intro j h' s' p' hj hx' hres' hlk'
      have hsucc := update_row_success lookup h' s' p' hx' hres' hlk'
      exact ⟨_, by rw [List.getElem?_map, hj]; rfl, hsucc.1⟩

/-- c7 amended, witnessed on the batch `[c7_holding, c6b_holding]`: the
unresolvable first holding keeps empty returns and no price, the
resolvable sibling still gets its looked-up price 120 — one failure does
not abort the batch. -/
theorem c7_witness :
    exactHit c7_holding = none ∧
    resolveSymbol c7_holding = none ∧
    (update_portfolio_data (fun _ => some (120 : ℚ))
      [c7_holding, c6b_holding]).length = 2 ∧
    (∃ r, (update_portfolio_data (fun _ => some (120 : ℚ))
        [c7_holding, c6b_holding])[0]? = some r ∧
      r.rendimento_pct = none ∧ r.rendimento_val = none ∧
      r.prezzo_attuale = none) ∧
    (∃ r', (update_portfolio_data (fun _ => some (120 : ℚ))
        [c7_holding, c6b_holding])[1]? = some r' ∧
      r'.prezzo_attuale = some 120) := by
  have hx : exactHit c7_holding = none := by decide
  have hres : resolveSymbol c7_holding = none := by decide
  have hmain := c7_amended (fun _ => some (120 : ℚ))
    [c7_holding, c6b_holding] 0 c7_holding rfl hx (Or.inl hres)
  refine ⟨hx, hres, hmain.1, ?_, ?_⟩
  · obtain ⟨r, hr, h1, h2, h3, _⟩ := hmain.2.1
    exact ⟨r, hr, h1.trans rfl, h2.trans rfl, h3⟩
  · exact hmain.2.2 1 c6b_holding "IWDA.L" 120 rfl (by decide) (by decide)
      rfl

/-- The concrete holding of the c10 counterexample: its name is a key of
the hardcoded `rendimenti_esatti` map, its ISIN is mapped, and a price is
available — yet none of that is consulted. -/
def c10_holding : PHolding :=
  ⟨some "Invesco Physical Gold A", some "IE00B579F325", some 10, some 50,
   some 500, none, none⟩

/-- c10 counterexample: the holding's market data is not obtained by
symbol resolution plus price lookup: the hardcoded exact-returns table is
consulted first and short-circuits the pipeline, returning the canned
14.27% (no current price recorded) instead of the price-derived
`(120 - 50) / 50 * 100 = 140`%. -/
theorem c10_counterexample :
    (update_portfolio_data (fun _ => some 120) [c10_holding]).map
      (·.rendimento_pct) = [some (14.27 : ℚ)] ∧
    (update_portfolio_data (fun _ => some 120) [c10_holding]).map
      (·.prezzo_attuale) = [none] ∧
    (14.27 : ℚ) ≠ (120 - 50) / 50 * 100 := by
  have hx : exactHit c10_holding = some (14.27, 866.20) := by rfl
  have hrow := update_row_exact (fun _ => some 120) c10_holding _ hx
  refine ⟨?_, ?_, by norm_num⟩ <;>
    · simp [update_portfolio_data, hrow, baseRow]
      norm_num [c10_holding]

/-- c10 amended: for every holding whose name is not in the hardcoded
exact-returns table, the market price is exactly the lookup of the
resolved symbol (`none` when resolution or lookup fails); resolution
tries the `identifier_code → symbol` exact-match table first and falls
back to name-fragment inference only when the ISIN is absent or unmapped;
and when nothing resolves the row keeps its input return figures and gets
no price and no per-row current value (the batch-level cost fallback of
c7 applies).  Holdings named in the exact-returns table bypass all of
this (see the counterexample). -/
theorem c10_amended (lookup : String → Option ℚ) (h : PHolding)
    (hx : exactHit h = none) :
    ((update_row lookup h).prezzo_attuale =
      (resolveSymbol h).bind lookup) ∧
    (∀ i s, h.isin = some i → get_symbol_from_isin i = some s →
      resolveSymbol h = some s) ∧
    (h.isin.bind get_symbol_from_isin = none →
      resolveSymbol h = h.nome.bind infer_symbol_from_name) ∧
    (resolveSymbol h = none →
      (update_row lookup h).rendimento_pct = h.rendimento_pct ∧
      (update_row lookup h).rendimento_val = h.rendimento_val ∧
      (update_row lookup h).prezzo_attuale = none ∧
      (update_row lookup h).valore_attuale = none) := by
  refine ⟨?_, ?_, ?_, ?_⟩
  · cases hres : resolveSymbol h with
    | none =>
      rw [update_row_unresolved lookup h hx hres]
      rfl
    | some s =>
      cases hlk : lookup s with
      | none =>
        rw [update_row_lookup_failed lookup h s hx hres hlk]
        simp [baseRow, hlk]
      | some p =>
        rw [(update_row_success lookup h s p hx hres hlk).1]
        simp [hlk]
  · intro i s hi hsym
    simp [resolveSymbol, hi, hsym]
  · intro hnone
    cases hisin : h.isin with
    | none =>
      simp only [resolveSymbol, hisin]
      cases h.nome <;> rfl
    | some i =>
      rw [hisin] at hnone
      simp only [Option.some_bind] at hnone
      simp only [resolveSymbol, hisin, hnone]
      cases h.nome <;> rfl
  · intro hres
    rw [update_row_unresolved lookup h hx hres]
    exact ⟨rfl, rfl, rfl, rfl⟩

/-- c10 amended, witnessed on `c6b_holding`, whose ISIN maps to `IWDA.L`:
its recorded price is the lookup of exactly that symbol. -/
theorem c10_witness :
    exactHit c6b_holding = none ∧
    resolveSymbol c6b_holding = some "IWDA.L" ∧
    (update_row (fun _ => some (120 : ℚ)) c6b_holding).prezzo_attuale =
      (resolveSymbol c6b_holding).bind (fun _ => some (120 : ℚ)) :=
  ⟨by decide, by decide,
   (c10_amended (fun _ => some (120 : ℚ)) c6b_holding (by decide)).1⟩

end PortfolioAnalyzer
